import Mathlib

/-
Verification of the elm-react core (`useElm` in src/index.ts) and its helper
module (`matchMsg`, `ImmutableList` in the companion source file).

JavaScript runtime values are shallowly embedded as `JSVal`:
`undef` stands for `undefined` (the absent value of `Maybe<T>`),
`prim` for a primitive (number-like) value, and `obj` for a plain object,
represented as an ordered association list of named fields.
The `instanceof Object` test of the source corresponds to `JSVal.isObject`.
-/

namespace ElmReact

inductive JSVal where
  | undef : JSVal
  | prim (n : Int) : JSVal
  | obj (fields : List (String × JSVal)) : JSVal

abbrev Fields := List (String × JSVal)

def JSVal.isObject : JSVal → Bool
  | .obj _ => true
  | _ => false

def JSVal.fieldsOf : JSVal → Fields
  | .obj fs => fs
  | _ => []

/-- First-match association-list lookup, the semantics of reading a named
property from an object literal or of `handlers[msg]`. -/
def assocLookup {β : Type} : List (String × β) → String → Option β
  | [], _ => none
  | p :: rest, key => if p.1 = key then some p.2 else assocLookup rest key

/-- The object-spread expression of the source, one level deep:
the embedding of a JS spread `\x7b...S, ...R\x7d` of two field lists.
Result keys: the keys of `S` in order (values overridden by `R` where `R`
has the key), then the keys of `R` not present in `S`, in order. -/
def spread2 (S R : Fields) : Fields :=
  S.map (fun p => (p.1, (assocLookup R p.1).getD p.2)) ++
    R.filter (fun p => (assocLookup S p.1).isNone)

/-- The embedding of spreading `(v instanceof Object && v)` into an object
literal: an object contributes its fields, anything else (`false`,
`undefined`, a primitive) contributes nothing. -/
def spreadArg (v : JSVal) : Fields :=
  if v.isObject then v.fieldsOf else []

/-- The payload built by a synthesized command and consumed by `dispatch`
(`DispatchProps` of the source). -/
structure DispatchProps (P : Type) where
  args  : List JSVal
  msg   : String
  props : P

/-- Parameter bundle of the `update` transition function. The command
surface `cmd` is threaded through opaquely (type parameter `C`). -/
structure UpdateParams (C P : Type) where
  args  : List JSVal
  cmd   : C
  model : JSVal
  msg   : String
  props : P

/-- Parameter bundle of the optional `afterUpdate` transition function. -/
structure AfterUpdateParams (C P : Type) where
  cmd   : C
  model : JSVal
  props : P

/-- `objectReducer` of `useElm`: runs `update`, merges an object-shaped
result over the model one level deep, then (when configured) runs
`afterUpdate` on the intermediate model and merges again. -/
def objectReducer {C P : Type}
    (update : UpdateParams C P → JSVal)
    (afterUpdate : Option (AfterUpdateParams C P → JSVal))
    (cmd : C) (model : JSVal) (d : DispatchProps P) : JSVal :=
  let maybeModel := update ⟨d.args, cmd, model, d.msg, d.props⟩
  let updatedModel := JSVal.obj (spread2 model.fieldsOf (spreadArg maybeModel))
  match afterUpdate with
  | some f =>
      let maybeModel2 := f ⟨cmd, updatedModel, d.props⟩
      JSVal.obj (spread2 updatedModel.fieldsOf (spreadArg maybeModel2))
  | none => updatedModel

/-- `primitiveReducer` of `useElm`: adopts the result of `update` as the new
model as-is (the `as TModel` cast is a runtime no-op), then, when
`afterUpdate` is configured, adopts its result as-is with no fallback. -/
def primitiveReducer {C P : Type}
    (update : UpdateParams C P → JSVal)
    (afterUpdate : Option (AfterUpdateParams C P → JSVal))
    (cmd : C) (model : JSVal) (d : DispatchProps P) : JSVal :=
  let updatedModel := update ⟨d.args, cmd, model, d.msg, d.props⟩
  match afterUpdate with
  | some f => f ⟨cmd, updatedModel, d.props⟩
  | none => updatedModel

/-- Plain invocation of a synthesized command for message `msg`:
`(...args) => dispatch(\x7bargs, msg, props\x7d)`. -/
def cmdInvoke {P : Type} (msg : String) (props : P) : List JSVal → DispatchProps P :=
  fun args => ⟨args, msg, props⟩

/-- The `curry` operation of a synthesized command:
`(...bindArgs) => (...args) => dispatch(\x7bargs: [...bindArgs, ...args], msg, props\x7d)`. -/
def cmdCurry {P : Type} (msg : String) (props : P) (bindArgs : List JSVal) :
    List JSVal → DispatchProps P :=
  fun args => ⟨bindArgs ++ args, msg, props⟩

/-- `matchMsg` of the helper module: looks up `msg` in the handler table,
applies the handler to the arguments when present, and otherwise falls
through the `if` with an implicit `undefined` return. -/
def matchMsg (msg : String) (args : List JSVal)
    (handlers : List (String × (List JSVal → JSVal))) : JSVal :=
  match assocLookup handlers msg with
  | some handler => handler args
  | none => JSVal.undef

/-
The `ImmutableList` class. Its backing arrays are embedded at two levels:
first as pure array values (`List JSVal`), with one content function per
method mirroring the JS array expressions the method builds; then as a heap
of array cells (`Heap`), where each method is an allocation of a fresh cell,
which makes the no-mutation and no-sharing claims expressible.
Indices are JS numbers restricted to integers (`Int`), since the class is
used with integer indices only; `arr[i]` yields `undefined` out of range.
-/

/-- Reading `arr[i]` with an integer index: the element when `0 <= i < len`,
otherwise `undefined`. -/
def jsGet (a : List JSVal) (i : Int) : JSVal :=
  if 0 ≤ i then (a[i.toNat]?).getD JSVal.undef else JSVal.undef

/-- Resolution of a relative index by `Array.prototype.slice`: a negative
index counts from the end clamped to `0`; a nonnegative one is clamped
to the length. -/
def sliceIndex (len : Nat) (i : Int) : Nat :=
  if i < 0 then ((len : Int) + i).toNat else min i.toNat len

/-- `arr.map((item, i) => ...)` starting at position `n`. -/
def jsMapFrom {α β : Type} (f : α → Nat → β) : Nat → List α → List β
  | _, [] => []
  | n, x :: xs => f x n :: jsMapFrom f (n + 1) xs

/-- `arr.filter((item, i) => ...)` starting at position `n`. -/
def jsFilterFrom {α : Type} (p : α → Nat → Bool) : Nat → List α → List α
  | _, [] => []
  | n, x :: xs =>
      if p x n then x :: jsFilterFrom p (n + 1) xs else jsFilterFrom p (n + 1) xs

/-- Array built by `append`: `[...arr, item]`. -/
def appendArr (a : List JSVal) (item : JSVal) : List JSVal :=
  a ++ [item]

/-- Array built by `prepend`: `[item, ...arr]`. -/
def prependArr (a : List JSVal) (item : JSVal) : List JSVal :=
  item :: a

/-- Array built by `insertAt`: `[...arr.slice(0, i), item, ...arr.slice(i)]`. -/
def insertAtArr (a : List JSVal) (i : Int) (item : JSVal) : List JSVal :=
  a.take (sliceIndex a.length i) ++ item :: a.drop (sliceIndex a.length i)

/-- Array built by `removeAt`: `arr.filter((_, n) => n !== i)`. -/
def removeAtArr (a : List JSVal) (i : Int) : List JSVal :=
  jsFilterFrom (fun _ n => !((n : Int) == i)) 0 a

/-- Array built by `pop`: `removeAt` at index `0` (from the start) or
`length - 1` (from the end). -/
def popArr (a : List JSVal) (start : Bool) : List JSVal :=
  removeAtArr a (if start then 0 else (a.length : Int) - 1)

/-- Array built by `updateAt(i, item)`: when `arr[i] instanceof Object`,
the element is replaced by `\x7b...arr[i], ...(item instanceof Object ? item : \x7b\x7d)\x7d`;
otherwise the element (at a matching position, if any) is replaced by
`item` wholesale. -/
def updateAtArr (a : List JSVal) (i : Int) (item : JSVal) : List JSVal :=
  if (jsGet a i).isObject then
    jsMapFrom
      (fun x n =>
        if (n : Int) == i then JSVal.obj (spread2 (jsGet a i).fieldsOf (spreadArg item))
        else x) 0 a
  else
    jsMapFrom (fun x n => if (n : Int) == i then item else x) 0 a

/-- Array built by `mutateAt`: remove when `shouldRemove(arr[i])` holds,
otherwise update via `updateAt` with either `\x7b...arr[i], ...maybeItem\x7d`
when `updateInstead` returned an object, or its raw result otherwise. -/
def mutateAtArr (a : List JSVal) (i : Int) (shouldRemove : JSVal → Bool)
    (updateInstead : JSVal → JSVal) : List JSVal :=
  if shouldRemove (jsGet a i) then removeAtArr a i
  else
    let maybeItem := updateInstead (jsGet a i)
    if maybeItem.isObject then
      updateAtArr a i (JSVal.obj (spread2 (jsGet a i).fieldsOf maybeItem.fieldsOf))
    else
      updateAtArr a i maybeItem

/-- Array built by `filter(predicate)`; the callback receives
`(item, index, array)`. -/
def filterArr (a : List JSVal) (p : JSVal → Nat → List JSVal → Bool) : List JSVal :=
  jsFilterFrom (fun x n => p x n a) 0 a

/-- Array built by `map(callbackfn)`; the callback receives
`(item, index, array)`. -/
def mapArr (a : List JSVal) (f : JSVal → Nat → List JSVal → JSVal) : List JSVal :=
  jsMapFrom (fun x n => f x n a) 0 a

/-- A heap of array cells. Each `ImmutableList` instance owns one cell
(its private backing array `_array`); a reference is an index into the
heap, and allocation appends a fresh cell. -/
structure Heap where
  cells : List (List JSVal)

/-- Dereference an array cell. -/
def Heap.read (h : Heap) (r : Nat) : List JSVal :=
  (h.cells[r]?).getD []

/-- Allocate a fresh array cell holding the value `v`; returns the new heap
and the reference to the fresh cell. The `ImmutableList` constructor is
exactly this: `this._array = [...array]` copies the value it is given
into storage no other instance references. -/
def Heap.alloc (h : Heap) (v : List JSVal) : Heap × Nat :=
  (⟨h.cells ++ [v]⟩, h.cells.length)

/-- One operation on an `ImmutableList` instance (or, for `construct`, on a
caller-supplied input array): every member of the class that takes or
returns an array. -/
inductive ListOp where
  | construct
  | arrayGet
  | append (item : JSVal)
  | prepend (item : JSVal)
  | insertAt (i : Int) (item : JSVal)
  | removeAt (i : Int)
  | updateAt (i : Int) (item : JSVal)
  | mutateAt (i : Int) (shouldRemove : JSVal → Bool) (updateInstead : JSVal → JSVal)
  | pop (start : Bool)
  | filter (p : JSVal → Nat → List JSVal → Bool)
  | map (f : JSVal → Nat → List JSVal → JSVal)

/-- The array value an operation computes from the subject array `a`
(the value of the new backing cell, or of the copy `get array` returns). -/
def ListOp.result (op : ListOp) (a : List JSVal) : List JSVal :=
  match op with
  | .construct => a
  | .arrayGet => a
  | .append item => appendArr a item
  | .prepend item => prependArr a item
  | .insertAt i item => insertAtArr a i item
  | .removeAt i => removeAtArr a i
  | .updateAt i item => updateAtArr a i item
  | .mutateAt i sr ui => mutateAtArr a i sr ui
  | .pop start => popArr a start
  | .filter p => filterArr a p
  | .map f => mapArr a f

/-- Run one operation against the instance whose backing cell is `r`:
compute the new array value from the current contents and allocate it
freshly (`new ImmutableList(...)`, or the copy made by `get array`). -/
def applyOp (h : Heap) (r : Nat) (op : ListOp) : Heap × Nat :=
  h.alloc (op.result (h.read r))

/-
Supporting lemmas about field lookup and the one-level spread.
-/

theorem assocLookup_append {β : Type} (A B : List (String × β)) (k : String) :
    assocLookup (A ++ B) k =
      match assocLookup A k with
      | some v => some v
      | none => assocLookup B k := by
  induction A with
  | nil => rfl
  | cons p rest ih => by_cases h : p.1 = k <;> simp [assocLookup, h, ih]

theorem assocLookup_mapOverride (S R : Fields) (k : String) :
    assocLookup (S.map (fun p => (p.1, (assocLookup R p.1).getD p.2))) k
      = (assocLookup S k).map (fun v => (assocLookup R k).getD v) := by
  induction S with
  | nil => rfl
  | cons p rest ih => by_cases h : p.1 = k <;> simp [assocLookup, h, ih]

theorem assocLookup_filterNew (S R : Fields) (k : String) :
    assocLookup (R.filter (fun p => (assocLookup S p.1).isNone)) k
      = if (assocLookup S k).isNone then assocLookup R k else none := by
  induction R with
  | nil => simp [assocLookup]
  | cons q rest ih =>
      by_cases hq : q.1 = k
      · by_cases hS : (assocLookup S k).isNone <;>
          simp [List.filter_cons, assocLookup, hq, hS, ih]
      · by_cases hSq : (assocLookup S q.1).isNone <;>
          simp [List.filter_cons, assocLookup, hq, hSq, ih]

/-- Lookup in the one-level spread: a key present in `R` yields the value of
`R`, and any other key yields the value of `S`. -/
theorem assocLookup_spread2 (S R : Fields) (k : String) :
    assocLookup (spread2 S R) k =
      match assocLookup R k with
      | some v => some v
      | none => assocLookup S k := by
  rw [spread2, assocLookup_append, assocLookup_mapOverride, assocLookup_filterNew]
  cases hR : assocLookup R k <;> cases hS : assocLookup S k <;> simp [hR, hS]

/-- Spreading nothing over `S` reproduces `S` exactly. -/
theorem spread2_nil (S : Fields) : spread2 S [] = S := by
  simp [spread2, assocLookup]

/-- C1: for object-shaped state `S` and an object-shaped result `R` of the
primary transition function, the state merged by the transition engine has,
at every field absent from `R`, the value of `S` unchanged, and at every
field of `R`, the value of `R` (new fields win over old, one level deep:
the value comes from `R` wholesale). -/
theorem objectReducer_merge_fields {C P : Type}
    (u : UpdateParams C P → JSVal) (c : C) (S R : Fields) (d : DispatchProps P)
    (hu : u ⟨d.args, c, JSVal.obj S, d.msg, d.props⟩ = JSVal.obj R) (k : String) :
    (assocLookup R k = none →
        assocLookup (objectReducer u none c (JSVal.obj S) d).fieldsOf k
          = assocLookup S k)
    ∧ (∀ v, assocLookup R k = some v →
        assocLookup (objectReducer u none c (JSVal.obj S) d).fieldsOf k = some v) := by
  have hred : objectReducer u none c (JSVal.obj S) d = JSVal.obj (spread2 S R) := by
    simp [objectReducer, hu, spreadArg, JSVal.isObject, JSVal.fieldsOf]
  rw [hred]
  constructor
  · intro hk
    rw [JSVal.fieldsOf, assocLookup_spread2, hk]
  · intro v hk
    rw [JSVal.fieldsOf, assocLookup_spread2, hk]

/-- C1 witness: with state fields a = 1, b = 3 and transition result a = 2,
the merged state has a = 2 (overridden) and b = 3 (unchanged). -/
theorem objectReducer_merge_fields_witness :
    assocLookup (objectReducer (fun _ => JSVal.obj [("a", JSVal.prim 2)]) none ()
        (JSVal.obj [("a", JSVal.prim 1), ("b", JSVal.prim 3)])
        ⟨[], "Msg", ()⟩).fieldsOf "b" = some (JSVal.prim 3)
    ∧ assocLookup (objectReducer (fun _ => JSVal.obj [("a", JSVal.prim 2)]) none ()
        (JSVal.obj [("a", JSVal.prim 1), ("b", JSVal.prim 3)])
        ⟨[], "Msg", ()⟩).fieldsOf "a" = some (JSVal.prim 2) :=
  ⟨((objectReducer_merge_fields (fun _ => JSVal.obj [("a", JSVal.prim 2)]) ()
      [("a", JSVal.prim 1), ("b", JSVal.prim 3)] [("a", JSVal.prim 2)]
      ⟨[], "Msg", ()⟩ rfl "b").1 rfl).trans rfl,
   (objectReducer_merge_fields (fun _ => JSVal.obj [("a", JSVal.prim 2)]) ()
      [("a", JSVal.prim 1), ("b", JSVal.prim 3)] [("a", JSVal.prim 2)]
      ⟨[], "Msg", ()⟩ rfl "a").2 (JSVal.prim 2) rfl⟩

/-- C2: for object-shaped state, a dispatch whose primary transition
function returns `undefined` leaves the state deep-equal to what it was,
provided no afterUpdate function is configured or the afterUpdate pass also
returns `undefined` on the intermediate state. -/
theorem objectReducer_absent_noop {C P : Type}
    (u : UpdateParams C P → JSVal) (af : Option (AfterUpdateParams C P → JSVal))
    (c : C) (S : Fields) (d : DispatchProps P)
    (hu : u ⟨d.args, c, JSVal.obj S, d.msg, d.props⟩ = JSVal.undef)
    (haf : ∀ f, af = some f → f ⟨c, JSVal.obj S, d.props⟩ = JSVal.undef) :
    objectReducer u af c (JSVal.obj S) d = JSVal.obj S := by
  cases af with
  | none =>
      simp [objectReducer, hu, spreadArg, JSVal.isObject, JSVal.fieldsOf, spread2_nil]
  | some f =>
      have hf := haf f rfl
      simp [objectReducer, hu, spreadArg, JSVal.isObject, JSVal.fieldsOf,
        spread2_nil, hf]

/-- C2 witness: with a two-field state, an absent primary result and an
absent afterUpdate result, the dispatched state is unchanged. -/
theorem objectReducer_absent_noop_witness :
    objectReducer (fun _ => JSVal.undef) (some fun _ => JSVal.undef) ()
        (JSVal.obj [("a", JSVal.prim 1), ("b", JSVal.prim 3)]) ⟨[], "Msg", ()⟩
      = JSVal.obj [("a", JSVal.prim 1), ("b", JSVal.prim 3)] :=
  objectReducer_absent_noop (fun _ => JSVal.undef) (some fun _ => JSVal.undef) ()
    [("a", JSVal.prim 1), ("b", JSVal.prim 3)] ⟨[], "Msg", ()⟩ rfl
    (fun _ hf => by cases hf; rfl)

/-- C3: for non-object state the engine adopts the primary result as the new
state as-is (in particular an absent result becomes the state), and when an
afterUpdate function is configured its result is the final state directly,
with no fallback to the intermediate state — both equations hold for every
result value, including `undefined`. -/
theorem primitiveReducer_adopts_results {C P : Type}
    (u : UpdateParams C P → JSVal) (f : AfterUpdateParams C P → JSVal)
    (c : C) (model : JSVal) (d : DispatchProps P) :
    primitiveReducer u none c model d = u ⟨d.args, c, model, d.msg, d.props⟩
    ∧ primitiveReducer u (some f) c model d
        = f ⟨c, u ⟨d.args, c, model, d.msg, d.props⟩, d.props⟩ :=
  ⟨rfl, rfl⟩

/-- C6: pre-binding a command with leading arguments `[a, b]` and then
calling the bound callable with trailing arguments `[c, d]` dispatches the
payload with arguments `[a, b, c, d]`, identical to invoking the unbound
command directly with `[a, b, c, d]`. -/
theorem cmdCurry_concat {P : Type} (msg : String) (props : P) (a b c d : JSVal) :
    cmdCurry msg props [a, b] [c, d] = cmdInvoke msg props [a, b, c, d] := rfl

/-- C10: `matchMsg` applies the handler registered for the message to the
arguments when one is present, and returns `undefined` when none is. -/
theorem matchMsg_handler_or_absent (msg : String) (args : List JSVal)
    (handlers : List (String × (List JSVal → JSVal))) :
    (∀ handler, assocLookup handlers msg = some handler →
        matchMsg msg args handlers = handler args)
    ∧ (assocLookup handlers msg = none → matchMsg msg args handlers = JSVal.undef) := by
  constructor
  · intro handler hh
    simp only [matchMsg, hh]
  · intro hh
    simp only [matchMsg, hh]

/-- C10 witness: a table handling only Inc returns the handler result for
Inc and `undefined` for Dec. -/
theorem matchMsg_handler_or_absent_witness :
    matchMsg "Inc" [] [("Inc", fun _ => JSVal.prim 1)] = JSVal.prim 1
    ∧ matchMsg "Dec" [] [("Inc", fun _ => JSVal.prim 1)] = JSVal.undef :=
  ⟨(matchMsg_handler_or_absent "Inc" [] [("Inc", fun _ => JSVal.prim 1)]).1
      (fun _ => JSVal.prim 1) rfl,
   (matchMsg_handler_or_absent "Dec" [] [("Inc", fun _ => JSVal.prim 1)]).2 rfl⟩

/-
Supporting lemmas about the indexed map and filter underlying the
`ImmutableList` methods.
-/

theorem jsMapFrom_length {α β : Type} (f : α → Nat → β) (n : Nat) (a : List α) :
    (jsMapFrom f n a).length = a.length := by
  induction a generalizing n with
  | nil => rfl
  | cons x xs ih => simp [jsMapFrom, ih]

theorem jsMapFrom_getElem? {α β : Type} (f : α → Nat → β) (n j : Nat) (a : List α) :
    (jsMapFrom f n a)[j]? = (a[j]?).map (fun x => f x (n + j)) := by
  induction a generalizing n j with
  | nil => simp [jsMapFrom]
  | cons x xs ih =>
      cases j with
      | zero => simp [jsMapFrom]
      | succ j =>
          have harith : n + 1 + j = n + (j + 1) := by omega
          simp [jsMapFrom, ih, harith]

theorem jsFilterFrom_all_true {α : Type} (p : α → Nat → Bool) (a : List α) (n : Nat)
    (hp : ∀ x m, n ≤ m → m < n + a.length → p x m = true) :
    jsFilterFrom p n a = a := by
  induction a generalizing n with
  | nil => rfl
  | cons x xs ih =>
      have hx : p x n = true := hp x n (Nat.le_refl n) (by simp)
      simp only [jsFilterFrom, hx, if_true]
      refine congrArg (x :: ·) (ih (n + 1) ?_)
      intro y m h1 h2
      refine hp y m (by omega) ?_
      simp only [List.length_cons]
      omega

/-- C7: reading an out-of-range index yields `undefined` rather than an
error, and removing at an out-of-range index yields a list equal
element-for-element to the original (a no-op copy). -/
theorem at_removeAt_out_of_range (a : List JSVal) (i : Int)
    (h : i < 0 ∨ (a.length : Int) ≤ i) :
    jsGet a i = JSVal.undef ∧ removeAtArr a i = a := by
  constructor
  · rw [jsGet]
    by_cases h0 : 0 ≤ i
    · rw [if_pos h0]
      have hnone : a[i.toNat]? = none := by
        apply List.getElem?_eq_none
        omega
      rw [hnone]
      rfl
    · rw [if_neg h0]
  · apply jsFilterFrom_all_true
    intro x m _ h2
    simp only [List.length_cons, Nat.zero_add] at h2
    simp only [Bool.not_eq_eq_eq_not, Bool.not_true, beq_eq_false_iff_ne, ne_eq]
    omega

/-- C7 witness: on the one-element list [1], index 5 reads as `undefined`
and removes nothing. -/
theorem at_removeAt_out_of_range_witness :
    jsGet [JSVal.prim 1] 5 = JSVal.undef ∧ removeAtArr [JSVal.prim 1] 5 = [JSVal.prim 1] :=
  at_removeAt_out_of_range [JSVal.prim 1] 5 (Or.inr (by decide))

/-- C8: inserting at any index at or past the length appends the item at
the end (and `insertAt` is total: no index signals a bounds error). -/
theorem insertAt_ge_length_appends (a : List JSVal) (i : Int) (item : JSVal)
    (h : (a.length : Int) ≤ i) :
    insertAtArr a i item = a ++ [item] := by
  have h0 : ¬ i < 0 := by omega
  have hlen : a.length ≤ i.toNat := by omega
  have hidx : sliceIndex a.length i = a.length := by
    rw [sliceIndex, if_neg h0]
    exact Nat.min_eq_right hlen
  rw [insertAtArr, hidx, List.take_length, List.drop_length]

/-- C8 witness: inserting 9 at index 7 of the two-element list [1, 2]
appends it at the end. -/
theorem insertAt_ge_length_appends_witness :
    insertAtArr [JSVal.prim 1, JSVal.prim 2] 7 (JSVal.prim 9)
      = [JSVal.prim 1, JSVal.prim 2, JSVal.prim 9] :=
  insertAt_ge_length_appends [JSVal.prim 1, JSVal.prim 2] 7 (JSVal.prim 9) (by decide)

/-- C9: on the empty list both pop() and pop(true) resolve to removing at an
out-of-range boundary index (-1 or 0) and return an empty list, raising no
error. -/
theorem pop_empty_noop :
    popArr ([] : List JSVal) false = [] ∧ popArr ([] : List JSVal) true = [] :=
  ⟨rfl, rfl⟩

/-- C5 counterexample: with an object-shaped element `\x7bx: 1\x7d` at index 0 and
the non-object replacement `5`, the claim predicts wholesale replacement by
`5`, but `updateAt` keeps the old element: the object branch merges
`\x7b...old, ...\x7b\x7d\x7d` and ignores the non-object replacement. -/
theorem updateAt_wholesale_counterexample :
    updateAtArr [JSVal.obj [("x", JSVal.prim 1)]] 0 (JSVal.prim 5)
      = [JSVal.obj [("x", JSVal.prim 1)]]
    ∧ updateAtArr [JSVal.obj [("x", JSVal.prim 1)]] 0 (JSVal.prim 5)
      ≠ [JSVal.prim 5] := by
  constructor
  · rfl
  · intro hEq
    have h0 : (updateAtArr [JSVal.obj [("x", JSVal.prim 1)]] 0 (JSVal.prim 5))[0]?
        = some (JSVal.obj [("x", JSVal.prim 1)]) := rfl
    rw [hEq] at h0
    simp at h0

/-- C5 as amended: `updateAt(i, item)` preserves the length and every
element at a position other than `i`; at an in-range position `i`, when the
existing element is object-shaped the result merges the object-shaped
fields of `item` (nothing, when `item` is not object-shaped) over the old
element one level deep, and when the existing element is not object-shaped
the element is replaced wholesale by `item`. -/
theorem updateAt_semantics (a : List JSVal) (i : Int) (item : JSVal) :
    (updateAtArr a i item).length = a.length
    ∧ (∀ j : Nat, (j : Int) ≠ i → (updateAtArr a i item)[j]? = a[j]?)
    ∧ (∀ j : Nat, (j : Int) = i → ∀ old, a[j]? = some old →
        (updateAtArr a i item)[j]? =
          some (if old.isObject then JSVal.obj (spread2 old.fieldsOf (spreadArg item))
                else item)) := by
  have hget : ∀ (g : JSVal → Nat → JSVal) (j : Nat),
      (jsMapFrom g 0 a)[j]? = (a[j]?).map (fun x => g x j) := by
    intro g j
    simpa using jsMapFrom_getElem? g 0 j a
  refine ⟨?_, ?_, ?_⟩
  · rw [updateAtArr]
    by_cases hobj : (jsGet a i).isObject <;> simp [hobj, jsMapFrom_length]
  · intro j hj
    rw [updateAtArr]
    by_cases hobj : (jsGet a i).isObject <;> simp [hobj, hget, hj]
  · intro j hj old hold
    have hjs : jsGet a i = old := by
      rw [jsGet, ← hj, if_pos (Int.natCast_nonneg j)]
      simp [hold]
    rw [updateAtArr]
    by_cases hobj : old.isObject
    · simp [hjs, hobj, hget, hj, hold]
    · simp [hjs, hobj, hget, hj, hold]

/-- C5 amended witness: on [\x7bx: 1\x7d, 7] with index 0 and object replacement
\x7by: 2\x7d, index 1 is unchanged and index 0 is the one-level merge \x7bx: 1, y: 2\x7d. -/
theorem updateAt_semantics_witness :
    (updateAtArr [JSVal.obj [("x", JSVal.prim 1)], JSVal.prim 7] 0
        (JSVal.obj [("y", JSVal.prim 2)]))[1]? = some (JSVal.prim 7)
    ∧ (updateAtArr [JSVal.obj [("x", JSVal.prim 1)], JSVal.prim 7] 0
        (JSVal.obj [("y", JSVal.prim 2)]))[0]?
      = some (JSVal.obj [("x", JSVal.prim 1), ("y", JSVal.prim 2)]) :=
  ⟨((updateAt_semantics [JSVal.obj [("x", JSVal.prim 1)], JSVal.prim 7] 0
      (JSVal.obj [("y", JSVal.prim 2)])).2.1 1 (by decide)).trans rfl,
   ((updateAt_semantics [JSVal.obj [("x", JSVal.prim 1)], JSVal.prim 7] 0
      (JSVal.obj [("y", JSVal.prim 2)])).2.2 0 (by decide)
      (JSVal.obj [("x", JSVal.prim 1)]) rfl).trans rfl⟩

/-- C4: every operation of the class — the constructor, the `array`
accessor, and the nine methods returning a new instance — leaves every
existing heap cell (in particular the subject instance's backing array
snapshot) unchanged, and places its result in a fresh cell whose reference
equals the old heap size, hence differs from every existing reference: no
two instances ever share backing storage. -/
theorem applyOp_fresh_no_mutation (h : Heap) (r : Nat) (op : ListOp) (s : Nat)
    (hs : s < h.cells.length) :
    (applyOp h r op).1.read s = h.read s ∧ (applyOp h r op).2 = h.cells.length := by
  constructor
  · show ((h.cells ++ [ListOp.result op (h.read r)])[s]?).getD []
        = (h.cells[s]?).getD []
    rw [List.getElem?_append_left hs]
  · rfl

/-- C4 witness: appending 2 to an instance backed by the single cell [1]
leaves that cell holding [1] and allocates cell 1 for the new instance. -/
theorem applyOp_fresh_no_mutation_witness :
    (applyOp ⟨[[JSVal.prim 1]]⟩ 0 (ListOp.append (JSVal.prim 2))).1.read 0
      = [JSVal.prim 1]
    ∧ (applyOp ⟨[[JSVal.prim 1]]⟩ 0 (ListOp.append (JSVal.prim 2))).2 = 1 :=
  ⟨(applyOp_fresh_no_mutation ⟨[[JSVal.prim 1]]⟩ 0 (ListOp.append (JSVal.prim 2)) 0
      (by decide)).1.trans rfl,
   (applyOp_fresh_no_mutation ⟨[[JSVal.prim 1]]⟩ 0 (ListOp.append (JSVal.prim 2)) 0
      (by decide)).2.trans rfl⟩

end ElmReact
